import Mathlib

/-!
Verification development for the `PipelineReplacer` stage of the amber
search-and-replace tool (`src/pipeline_replacer.rs`).

File bytes are modelled as `List Nat`.  Pure parts of the code (the match
write loop, the column/row scan, keystroke decoding, the stage message
loop) are embedded directly; the filesystem, the console keystream and the
external regex engine are modelled as explicit oracles threaded through the
definitions.
-/

namespace Amber

/-- A pattern occurrence: the half-open byte range `[beg, end)` of a match
(struct `Match` from `pipeline_matcher.rs`, the `end` field is renamed
`end_` because `end` is a Lean keyword). -/
structure Match where
  beg : Nat
  end_ : Nat
deriving DecidableEq

/-- A file path paired with its ordered match list (struct `PathMatch`). -/
structure PathMatch where
  path : String
  matches_ : List Match
deriving DecidableEq

/-- `src[a..b]`: the Rust slice of a byte list. -/
def listSlice (src : List Nat) (a b : Nat) : List Nat :=
  (src.drop a).take (b - a)

/-- One iteration budget for the `while pos < m.beg` scan of
`replace_match` (lines 131-137).  The loop advances `pos` by one each
iteration, so `beg - pos` iterations happen in total; the fuel argument
makes the recursion structural. -/
def scanToAux (src : List Nat) : Nat → Nat → Nat → Nat → Nat → Nat × Nat × Nat
  | 0, pos, column, lastLf, _ => (pos, column, lastLf)
  | fuel + 1, pos, column, lastLf, beg =>
    if pos < beg then
      if src.getD pos 0 = 10 then scanToAux src fuel (pos + 1) (column + 1) pos beg
      else scanToAux src fuel (pos + 1) column lastLf beg
    else (pos, column, lastLf)

/-- The incremental column/row scan of `replace_match` (lines 131-137):
starting from state `(pos, column, lastLf)`, scan forward to byte offset
`beg`, counting line-feed bytes (`0x0a`) into `column` and remembering the
offset of the most recent line feed in `lastLf`. -/
def scanTo (src : List Nat) (pos column lastLf beg : Nat) : Nat × Nat × Nat :=
  scanToAux src (beg - pos) pos column lastLf beg

/-- The column number printed for a match starting at `beg` when the scan
state is `(pos, column, lastLf)` (line 139: `column + 1`). -/
def printedColumn (src : List Nat) (pos column lastLf beg : Nat) : Nat :=
  (scanTo src pos column lastLf beg).2.1 + 1

/-- The row number printed for a match starting at `beg` (line 144:
`m.beg - last_lf`). -/
def printedRow (src : List Nat) (pos column lastLf beg : Nat) : Nat :=
  beg - (scanTo src pos column lastLf beg).2.2

/-- Outcome of the keystroke prompt (lines 162-185). -/
inductive KeyOutcome where
  | rep (doReplace : Bool)
  | all
  | quit
deriving DecidableEq

/-- The prompt loop of `replace_match` (lines 162-185): read keys until a
recognized one arrives.  `'Y'`, `'y'`, space, CR and LF accept; `'N'`,
`'n'` decline; `'A'`, `'a'` switch to bulk accept; `'Q'`, `'q'` quit; any
other key re-prompts.  `none` models the keystream failing (a `getch`
error, which the surrounding `catch` turns into an item error). -/
def readKeys : List Char → Option (KeyOutcome × List Char)
  | [] => none
  | k :: rest =>
    if k = 'Y' ∨ k = 'y' ∨ k = ' ' ∨ k = '\r' ∨ k = '\n' then some (.rep true, rest)
    else if k = 'N' ∨ k = 'n' then some (.rep false, rest)
    else if k = 'A' ∨ k = 'a' then some (.all, rest)
    else if k = 'Q' ∨ k = 'q' then some (.quit, rest)
    else readKeys rest

/-- The mutable state threaded through the match loop of `replace_match`:
the `all_replace` flag, the pending user keystrokes, and the scan state
`pos`/`column`/`last_lf` (lines 108-111). -/
structure RState where
  allReplace : Bool
  keys : List Char
  pos : Nat
  column : Nat
  lastLf : Nat
deriving DecidableEq

/-- Result of the per-match write loop: `done` carries the list of byte
chunks passed to `write_all` in order plus the final state; `quit` models
the `'q'` branch (process exit); `keyErr` models a failed key read. -/
inductive WriteOut where
  | done (chunks : List (List Nat)) (st : RState)
  | quit
  | keyErr
deriving DecidableEq

/-- Result of the per-match decision (lines 121-186). -/
inductive DecRes where
  | go (doReplace : Bool) (st : RState)
  | quit
  | keyErr
deriving DecidableEq

/-- The per-match decision of `replace_match` (lines 121-186): when
interactive and not yet bulk-accepting, run the column/row scan (if a
column or row header is printed), then prompt; otherwise replace without
asking.  `do_replace` starts out `true`, so the `'a'` key both sets
`all_replace` and replaces the current match. -/
def decideOne (src : List Nat) (inter pcol prow : Bool) (beg : Nat) (st : RState) : DecRes :=
  if inter && !st.allReplace then
    let st :=
      if pcol || prow then
        let s := scanTo src st.pos st.column st.lastLf beg
        { st with pos := s.1, column := s.2.1, lastLf := s.2.2 }
      else st
    match readKeys st.keys with
    | none => .keyErr
    | some (.rep dr, ks) => .go dr { st with keys := ks }
    | some (.all, ks) => .go true { st with allReplace := true, keys := ks }
    | some (.quit, _) => .quit
  else .go true st

/-- The match write loop of `replace_match` (lines 108-199): for each match
write `src[i..m.beg]`, compute the replacement (regex mode re-derives it
from the matched slice through the engine `rfn`, literal mode uses the
fixed `replacement` bytes), decide, then write either the replacement or
the original matched bytes; after the last match write the trailing
`src[i..len]` if any byte remains.  The chunk list collects the arguments
of the `write_all` calls in order. -/
def matchLoop (src : List Nat) (inter pcol prow rmode : Bool) (fixed : List Nat)
    (rfn : List Nat → List Nat) : List Match → Nat → RState → WriteOut
  | [], i, st => .done (if i < src.length then [listSlice src i src.length] else []) st
  | m :: ms, i, st =>
    let replacement := if rmode then rfn (listSlice src m.beg m.end_) else fixed
    match decideOne src inter pcol prow m.beg st with
    | .keyErr => .keyErr
    | .quit => .quit
    | .go dr st2 =>
      match matchLoop src inter pcol prow rmode fixed rfn ms m.end_ st2 with
      | .done cs st3 =>
        .done (listSlice src i m.beg ::
          (if dr then replacement else listSlice src m.beg m.end_) :: cs) st3
      | r => r

/-- The full byte content written to the temporary file, when the loop
completes. -/
def outContent : WriteOut → Option (List Nat)
  | .done cs _ => some cs.flatten
  | _ => none

/-- Validity of a match list against a cursor `i`: every range has
`i ≤ beg ≤ end` and ranges are chained (non-overlapping, ordered by
`beg`).  This is the upstream `pipeline_matcher` invariant the claims
assume. -/
def ChainValid : Nat → List Match → Prop
  | _, [] => True
  | i, m :: ms => i ≤ m.beg ∧ m.beg ≤ m.end_ ∧ ChainValid m.end_ ms

instance chainValidDec : ∀ (i : Nat) (ms : List Match), Decidable (ChainValid i ms)
  | _, [] => isTrue trivial
  | i, m :: ms =>
    haveI : Decidable (ChainValid m.end_ ms) := chainValidDec m.end_ ms
    inferInstanceAs (Decidable (i ≤ m.beg ∧ m.beg ≤ m.end_ ∧ ChainValid m.end_ ms))

/-- Spec-side description (from the spec's words): after a match `m`, its
replacement, then the original bytes between consecutive matches, then the
original bytes after the last match's end. -/
def betweenChunks (src : List Nat) (repl : Match → List Nat) : Match → List Match → List Nat
  | m, [] => repl m ++ src.drop m.end_
  | m, m2 :: rest => repl m ++ listSlice src m.end_ m2.beg ++ betweenChunks src repl m2 rest

/-- Spec-side description (from the spec's words) of the whole rewritten
content when every match is replaced: the original bytes before the first
match, then for each match its replacement with the original bytes between
consecutive matches copied verbatim, then the original trailing bytes. -/
def specReplacedContent (src : List Nat) (repl : Match → List Nat) : List Match → List Nat
  | [] => src
  | m :: ms => src.take m.beg ++ betweenChunks src repl m ms

/-- Spec-side description generalized to a cursor `i` (proof device). -/
def specTailContent (src : List Nat) (repl : Match → List Nat) : Nat → List Match → List Nat
  | i, [] => src.drop i
  | i, m :: ms => listSlice src i m.beg ++ betweenChunks src repl m ms

/-- The chunk list produced by the write loop when every match is replaced
(proof device: `matchLoop` reduces to this when interactive mode is off or
bulk accept is on). -/
def bulkChunks (src : List Nat) (rmode : Bool) (fixed : List Nat)
    (rfn : List Nat → List Nat) : List Match → Nat → List (List Nat)
  | [], i => if i < src.length then [listSlice src i src.length] else []
  | m :: ms, i =>
    listSlice src i m.beg ::
      (if rmode then rfn (listSlice src m.beg m.end_) else fixed) ::
        bulkChunks src rmode fixed rfn ms m.end_

/-! ## Pattern-mode replacement (`get_regex_replacement`, lines 232-247)

The trimming of the `\b` boundary token from the keyword is embedded from
the source (`trim_start_matches("\\b")` / `trim_end_matches("\\b")`); the
external `regex` crate (compilation, capture search, template expansion) is
not part of this repository and is modelled from the spec below. -/

/-- Rust `str::trim_start_matches` on byte lists: repeatedly strip the
pattern from the front while it is a prefix.  The fuel argument (one unit
per stripped byte at least) makes the recursion structural; `s.length`
fuel always suffices because each strip removes at least one byte. -/
def trimStartAux (pat : List Nat) : Nat → List Nat → List Nat
  | 0, s => s
  | fuel + 1, s =>
    if pat ≠ [] ∧ pat.isPrefixOf s then trimStartAux pat fuel (s.drop pat.length) else s

/-- Rust `str::trim_start_matches` on byte lists. -/
def trimStartMatches (pat s : List Nat) : List Nat :=
  trimStartAux pat s.length s

/-- Rust `str::trim_end_matches` on byte lists: strip the pattern
repeatedly from the back, via reversal. -/
def trimEndMatches (pat s : List Nat) : List Nat :=
  (trimStartMatches pat.reverse s.reverse).reverse

/-- The two bytes of the text `\b` (backslash, `b`) as it appears inside
the keyword pattern string. -/
def bbToken : List Nat := [92, 98]

/-- Modelled from the spec: the compiled form of a regex pattern as the
external `regex` crate provides it.  Only the shapes needed by the
replacement stage are represented: literal byte runs, capture groups and
concatenation. -/
inductive RE where
  | lit (s : List Nat)
  | grp (r : RE)
  | cat (a b : RE)
deriving DecidableEq

/-- Modelled from the spec: matching a compiled pattern against the start
of the input, returning the unconsumed rest and the capture-group texts in
group-opening order (as `Regex::captures` exposes them for `$1`, `$2`,
...). -/
def reMatch : RE → List Nat → Option (List Nat × List (List Nat))
  | .lit s, input => if s.isPrefixOf input then some (input.drop s.length, []) else none
  | .grp r, input =>
    match reMatch r input with
    | none => none
    | some (rest, caps) => some (rest, input.take (input.length - rest.length) :: caps)
  | .cat a b, input =>
    match reMatch a input with
    | none => none
    | some (rest, caps) =>
      match reMatch b rest with
      | none => none
      | some (rest2, caps2) => some (rest2, caps ++ caps2)

/-- Modelled from the spec: one piece of a parsed replacement template —
literal text or a `$n` back-reference. -/
inductive TItem where
  | str (s : List Nat)
  | ref (n : Nat)
deriving DecidableEq

/-- Modelled from the spec: `Captures::expand` — splice each
back-reference's captured text (`$0` is the whole match) between the
literal pieces of the template. -/
def expandTemplate (caps : List (List Nat)) (whole : List Nat) : List TItem → List Nat
  | [] => []
  | .str s :: ts => s ++ expandTemplate caps whole ts
  | .ref 0 :: ts => whole ++ expandTemplate caps whole ts
  | .ref (n + 1) :: ts => caps.getD n [] ++ expandTemplate caps whole ts

/-- `PipelineReplacer::get_regex_replacement` (lines 232-247): strip the
`\b` boundary tokens from the start and end of the keyword, re-match the
stripped pattern against the matched bytes, and expand the replacement
template's back-references against the captures.  `compile` and
`parseTemplate` stand for the external regex crate's parser (modelled from
the spec); `none` models the `unwrap` panic when the slice unexpectedly
fails to re-match. -/
def get_regex_replacement (compile : List Nat → RE) (parseTemplate : List Nat → List TItem)
    (keyword replacement org : List Nat) : Option (List Nat) :=
  let kw := trimEndMatches bbToken (trimStartMatches bbToken keyword)
  match reMatch (compile kw) org with
  | none => none
  | some (rest, caps) =>
    some (expandTemplate caps (org.take (org.length - rest.length)) (parseTemplate replacement))

/-! ## The replacer state machine (`replace_match`, lines 66-230) -/

/-- The rewrite steps of the `catch` block that can fail with an I/O
error, in source order (lines 85-219). -/
inductive IoStage where
  | tmpCreate
  | openMap
  | writeFlush
  | canonTarget
  | readMeta
  | setPerms
  | persistTmp
  | setTimes
deriving DecidableEq

/-- The external world of one run: path canonicalization, file contents,
which rewrite step (if any) fails for a given path and with what decoded
reason, and the external regex engine as a whole-replacement function. -/
structure Fs where
  canon : String → Option String
  content : String → List Nat
  fails : String → Option (IoStage × String)
  regexEngine : List Nat → List Nat

/-- Whether the world makes step `s` fail for path `p`. -/
def failsAt (fs : Fs) (p : String) (s : IoStage) : Option String :=
  match fs.fails p with
  | some (s', e) => if s' = s then some e else none
  | none => none

/-- The `PipelineReplacer` state (struct fields, lines 25-42), plus the
pending console keystream and the console output, which model the
Console/Getch collaborators. -/
structure Replacer where
  isColor : Bool
  isInteractive : Bool
  preserveTime : Bool
  printFile : Bool
  printColumn : Bool
  printRow : Bool
  infos : List String
  errors : List String
  allReplace : Bool
  keyword : List Nat
  replacement : List Nat
  regexMode : Bool
  replacedPaths : List String
  keys : List Char
  consoleOut : List String
deriving DecidableEq

/-- The text written to the console on a rewrite failure (lines 225-228):
`Error: <decoded reason> @ <path>`, the path in Rust `{:?}` (quoted)
form. -/
def errorLine (reason path : String) : String :=
  "Error: " ++ reason ++ " @ \"" ++ path ++ "\"\n"

/-- Append a rewrite-failure diagnostic to the console output (the `Err`
arm, lines 225-228).  Note it writes to the console; it does not touch the
`errors` list. -/
def writeConsoleError (r : Replacer) (reason path : String) : Replacer :=
  { r with consoleOut := r.consoleOut ++ [errorLine reason path] }

/-- What `replace_match` did to the target file. -/
inductive RewriteOutcome where
  | skipped
  | exited
  | failed
  | failedAfterInstall (canonPath : String) (newContent : List Nat)
  | replaced (canonPath : String) (newContent : List Nat)
deriving DecidableEq

/-- The `catch` block of `replace_match` (lines 84-222): create the temp
file, install the interrupt handler, open and map the source, run the
match write loop, then flush, re-canonicalize, read metadata, copy
permissions, persist atomically and (in preserve-time mode) restore the
timestamps.  A failure at any step is surfaced as `Err` and reported on
the console by the caller's `Err` arm; a failure at the timestamp step
happens after the atomic install, so the target already carries the new
content. -/
def rewriteFile (fs : Fs) (r : Replacer) (pm : PathMatch) (cpath : String) :
    Replacer × RewriteOutcome :=
  match failsAt fs pm.path IoStage.tmpCreate with
  | some e => (writeConsoleError r e pm.path, .failed)
  | none =>
    match failsAt fs pm.path IoStage.openMap with
    | some e => (writeConsoleError r e pm.path, .failed)
    | none =>
      let src := fs.content pm.path
      match matchLoop src r.isInteractive r.printColumn r.printRow r.regexMode
          r.replacement fs.regexEngine pm.matches_ 0 ⟨r.allReplace, r.keys, 0, 0, 0⟩ with
      | .quit => (r, .exited)
      | .keyErr => (writeConsoleError r "getch" pm.path, .failed)
      | .done chunks st =>
        let r2 := { r with allReplace := st.allReplace, keys := st.keys }
        match failsAt fs pm.path IoStage.writeFlush with
        | some e => (writeConsoleError r2 e pm.path, .failed)
        | none =>
          match failsAt fs pm.path IoStage.canonTarget with
          | some e => (writeConsoleError r2 e pm.path, .failed)
          | none =>
            match failsAt fs pm.path IoStage.readMeta with
            | some e => (writeConsoleError r2 e pm.path, .failed)
            | none =>
              match failsAt fs pm.path IoStage.setPerms with
              | some e => (writeConsoleError r2 e pm.path, .failed)
              | none =>
                match failsAt fs pm.path IoStage.persistTmp with
                | some e => (writeConsoleError r2 e pm.path, .failed)
                | none =>
                  if r.preserveTime then
                    match failsAt fs pm.path IoStage.setTimes with
                    | some e =>
                      (writeConsoleError r2 e pm.path,
                        .failedAfterInstall cpath chunks.flatten)
                    | none => (r2, .replaced cpath chunks.flatten)
                  else (r2, .replaced cpath chunks.flatten)

/-- `PipelineReplacer::replace_match` (lines 66-230): skip empty match
lists; canonicalize the path, abandoning the item silently when that
fails; skip paths whose canonical form was already handled, inserting the
canonical form into the replaced-path set before the rewrite is attempted;
then run the fallible rewrite and report any error on the console. -/
def replace_match (fs : Fs) (r : Replacer) (pm : PathMatch) : Replacer × RewriteOutcome :=
  if pm.matches_ = [] then (r, .skipped)
  else
    match fs.canon pm.path with
    | none => (r, .skipped)
    | some cpath =>
      if cpath ∈ r.replacedPaths then (r, .skipped)
      else rewriteFile fs { r with replacedPaths := cpath :: r.replacedPaths } pm cpath

/-! ## The interrupt-handler installation order (lines 85-101) -/

/-- Actions of the installed interrupt handler (lines 90-101): delete the
in-progress temporary file, restore the terminal `c_lflag` mode, and
terminate the process. -/
inductive HAct where
  | cleanupTmp
  | restoreLflag
  | exitProc
deriving DecidableEq

/-- Events of the `catch` block of `replace_match` in program order. -/
inductive Ev where
  | createTmp
  | setHandler (acts : List HAct)
  | openFile
  | mmapFile
  | write (bytes : List Nat)
  | flushTmp
  | canonTarget
  | readMeta
  | setPerms
  | persistTmp
  | setTimes
deriving DecidableEq

/-- The actions the interrupt handler closure performs when triggered
(lines 90-101). -/
def interruptHandlerActs : List HAct := [HAct.cleanupTmp, HAct.restoreLflag, HAct.exitProc]

/-- The event trace of a successful rewrite (lines 85-219): temp-file
creation, interrupt-handler installation, open, map, one `write` per
`write_all` chunk, flush, re-canonicalize, metadata, permissions, atomic
persist, and (in preserve-time mode) timestamp restore.  The handler is
re-registered here, per file, because it closes over this file's temp
path. -/
def rewriteEvents (preserveTime : Bool) (chunks : List (List Nat)) : List Ev :=
  [Ev.createTmp, Ev.setHandler interruptHandlerActs, Ev.openFile, Ev.mmapFile]
  ++ chunks.map Ev.write
  ++ [Ev.flushTmp, Ev.canonTarget, Ev.readMeta, Ev.setPerms, Ev.persistTmp]
  ++ (if preserveTime then [Ev.setTimes] else [])

/-! ## The stage loop (`setup`, lines 251-301) -/

/-- The channel envelope (`PipelineInfo` from `pipeline.rs`): run
boundaries, sequenced data, and the diagnostic side channel.  Durations
are modelled as `Nat`. -/
inductive PipelineInfo (T : Type) where
  | seqDat (x : Nat) (t : T)
  | seqBeg (x : Nat)
  | seqEnd (x : Nat)
  | msgDebug (i : Nat) (e : String)
  | msgInfo (i : Nat) (e : String)
  | msgErr (i : Nat) (e : String)
  | msgTime (i : Nat) (t0 t1 : Nat)
deriving DecidableEq

/-- The receive loop of `PipelineReplacer::setup` (lines 256-300) over a
list of received envelopes: process data items (a process exit inside
`replace_match` stops everything), forward only the first `SeqBeg`, and on
`SeqEnd` flush the accumulated info and error strings tagged with the
stage id, send the timing message, forward `SeqEnd` and stop reading.
Relayed diagnostics are forwarded unchanged; channel closure (end of the
list) stops the loop without a synthetic `SeqEnd`.  `tBsy`/`tEl` are the
busy and elapsed durations reported in the timing message. -/
def setupLoop (proc : Replacer → PathMatch → Replacer × RewriteOutcome)
    (id tBsy tEl : Nat) :
    Replacer → Bool → List (PipelineInfo PathMatch) → List (PipelineInfo Unit)
  | _, _, [] => []
  | r, begArr, .seqDat x pm :: rest =>
    let pr := proc r pm
    if pr.2 = RewriteOutcome.exited then []
    else .seqDat x () :: setupLoop proc id tBsy tEl pr.1 begArr rest
  | r, begArr, .seqBeg x :: rest =>
    if begArr then setupLoop proc id tBsy tEl r begArr rest
    else .seqBeg x :: setupLoop proc id tBsy tEl r true rest
  | r, _, .seqEnd x :: _ =>
    (r.infos.map (PipelineInfo.msgInfo id)) ++ (r.errors.map (PipelineInfo.msgErr id))
      ++ [PipelineInfo.msgTime id tBsy tEl, PipelineInfo.seqEnd x]
  | r, begArr, .msgDebug i e :: rest =>
    .msgDebug i e :: setupLoop proc id tBsy tEl r begArr rest
  | r, begArr, .msgInfo i e :: rest =>
    .msgInfo i e :: setupLoop proc id tBsy tEl r begArr rest
  | r, begArr, .msgErr i e :: rest =>
    .msgErr i e :: setupLoop proc id tBsy tEl r begArr rest
  | r, begArr, .msgTime i t0 t1 :: rest =>
    .msgTime i t0 t1 :: setupLoop proc id tBsy tEl r begArr rest

/-- `PipelineReplacer::setup` (lines 251-301): reset the diagnostic lists,
start with `seq_beg_arrived = false`, and run the receive loop with
`replace_match` as the per-item processor. -/
def setup (fs : Fs) (id tBsy tEl : Nat) (r : Replacer)
    (input : List (PipelineInfo PathMatch)) : List (PipelineInfo Unit) :=
  setupLoop (replace_match fs) id tBsy tEl { r with infos := [], errors := [] } false input

/-- The replacer state (and the `seq_beg_arrived` flag) after the loop has
consumed a list of envelopes none of which is `SeqEnd` (proof device for
the flush-on-end theorem). -/
def loopState (proc : Replacer → PathMatch → Replacer × RewriteOutcome) :
    Replacer → Bool → List (PipelineInfo PathMatch) → Replacer × Bool
  | r, b, [] => (r, b)
  | r, b, .seqDat _ pm :: rest => loopState proc (proc r pm).1 b rest
  | r, _, .seqBeg _ :: rest => loopState proc r true rest
  | r, b, _ :: rest => loopState proc r b rest

/-- The prefix of an envelope list up to and including the first `SeqEnd`
(the whole list when none occurs). -/
def upToEnd {T : Type} : List (PipelineInfo T) → List (PipelineInfo T)
  | [] => []
  | .seqEnd x :: _ => [.seqEnd x]
  | e :: rest => e :: upToEnd rest

/-- The sequence ids of the `SeqBeg` envelopes of a list, in order. -/
def begSeqs {T : Type} : List (PipelineInfo T) → List Nat
  | [] => []
  | .seqBeg x :: rest => x :: begSeqs rest
  | _ :: rest => begSeqs rest

/-- The sequence ids of the `SeqEnd` envelopes of a list, in order. -/
def endSeqs {T : Type} : List (PipelineInfo T) → List Nat
  | [] => []
  | .seqEnd x :: rest => x :: endSeqs rest
  | _ :: rest => endSeqs rest

/-- `true` exactly on `SeqEnd` envelopes. -/
def isEnd {T : Type} : PipelineInfo T → Bool
  | .seqEnd _ => true
  | _ => false

/-! ## Spec-side characterizations of the column/row scan -/

/-- The number of line-feed bytes strictly before offset `beg`. -/
def lfCountBefore (src : List Nat) (beg : Nat) : Nat :=
  (List.range beg).countP (fun p => decide (src.getD p 0 = 10))

/-- The offset of the most recent line-feed byte strictly before offset
`beg`, or `0` when there is none (the initial `last_lf` value). -/
def lastLfBefore (src : List Nat) (beg : Nat) : Nat :=
  (List.range beg).foldl (fun acc p => if src.getD p 0 = 10 then p else acc) 0

/-- The claim's reading of the printed column: the number of characters
between the last line start (the byte right after the most recent line
feed, or offset `0`) and the match start, counted 1-based. -/
def lineStartOffset (src : List Nat) (beg : Nat) : Nat :=
  (List.range beg).foldl (fun acc p => if src.getD p 0 = 10 then p + 1 else acc) 0

/-- Proof device: line feeds among offsets `[pos, beg)`. -/
def countLfIn (src : List Nat) (pos beg : Nat) : Nat :=
  (List.range' pos (beg - pos)).countP (fun p => decide (src.getD p 0 = 10))

/-- Proof device: offset of the most recent line feed in `[pos, beg)`,
falling back to `lf`. -/
def lastLfIn (src : List Nat) (lf pos beg : Nat) : Nat :=
  (List.range' pos (beg - pos)).foldl (fun acc p => if src.getD p 0 = 10 then p else acc) lf

/-! ## Concrete fixtures used by witnesses and counterexamples -/

/-- The bytes of `foo bar foo`. -/
def srcFooBar : List Nat := [102, 111, 111, 32, 98, 97, 114, 32, 102, 111, 111]

/-- The two `foo` matches of `foo bar foo`. -/
def msFoo : List Match := [⟨0, 3⟩, ⟨8, 11⟩]

/-- The bytes of `baz`. -/
def bazBytes : List Nat := [98, 97, 122]

/-- A replacer in its construction-time configuration (`new`, lines 45-64)
with interactive mode off, literal replacement `x`. -/
def baseR : Replacer :=
  { isColor := true, isInteractive := false, preserveTime := false,
    printFile := true, printColumn := false, printRow := false,
    infos := [], errors := [], allReplace := false,
    keyword := [], replacement := [120], regexMode := false,
    replacedPaths := [], keys := [], consoleOut := [] }

/-- A world where `/t/a` canonicalizes to `/t/ca`, holds `abc`, and the
timestamp-restore step fails with `permission denied`. -/
def fsT : Fs :=
  { canon := fun p => if p = "/t/a" then some "/t/ca" else none,
    content := fun _ => [97, 98, 99],
    fails := fun p => if p = "/t/a" then some (IoStage.setTimes, "permission denied") else none,
    regexEngine := fun bs => bs }

/-- A match record for `/t/a` covering the whole file `abc`. -/
def pmT : PathMatch := { path := "/t/a", matches_ := [⟨0, 3⟩] }

/-- A world where `/a` and `/b` both canonicalize to `/c` (a symlink pair)
and every I/O step succeeds. -/
def fsOK : Fs :=
  { canon := fun p => if p = "/a" ∨ p = "/b" then some "/c" else none,
    content := fun _ => [97, 98, 99],
    fails := fun _ => none,
    regexEngine := fun bs => bs }

/-- A match record reaching the file via `/a`. -/
def pmA : PathMatch := { path := "/a", matches_ := [⟨0, 3⟩] }

/-- A match record reaching the same file via `/b`. -/
def pmB : PathMatch := { path := "/b", matches_ := [⟨1, 2⟩] }

/-- A match record whose path does not canonicalize in `fsOK`. -/
def pmX : PathMatch := { path := "/x", matches_ := [⟨0, 1⟩] }

/-- A world where no path canonicalizes (every item is skipped, so
processing never exits the process). -/
def fsNone : Fs :=
  { canon := fun _ => none,
    content := fun _ => [],
    fails := fun _ => none,
    regexEngine := fun bs => bs }

/-- An input stream with duplicate `SeqBeg`s and traffic after `SeqEnd`. -/
def inputT : List (PipelineInfo PathMatch) :=
  [.seqBeg 0, .seqBeg 1, .msgInfo 2 "up", .seqDat 0 pmA, .seqEnd 0, .seqBeg 2, .seqDat 1 pmB]

/-- Its portion before the first `SeqEnd`. -/
def preT : List (PipelineInfo PathMatch) :=
  [.seqBeg 0, .seqBeg 1, .msgInfo 2 "up", .seqDat 0 pmA]

/-- A modelled compiler for the keyword `(ab)c`: byte-exact on the trimmed
pattern text. -/
def compileEx : List Nat → RE := fun kw =>
  if kw = [40, 97, 98, 41, 99] then RE.cat (RE.grp (RE.lit [97, 98])) (RE.lit [99])
  else RE.lit kw

/-- A modelled template parser for the replacement `$1c`. -/
def templateEx : List Nat → List TItem := fun t =>
  if t = [36, 49, 99] then [TItem.ref 1, TItem.str [99]] else [TItem.str t]

/-- The bytes of the keyword `\b(ab)c\b`. -/
def kwEx : List Nat := [92, 98, 40, 97, 98, 41, 99, 92, 98]

/-- The bytes of the replacement template `$1c`. -/
def replEx : List Nat := [36, 49, 99]

/-! ## Slice lemmas -/

theorem listSlice_append_drop (src : List Nat) {a b : Nat} (h : a ≤ b) :
    listSlice src a b ++ src.drop b = src.drop a := by
  unfold listSlice
  have h2 : (src.drop a).drop (b - a) = src.drop b := by
    rw [List.drop_drop]
    congr 1
    omega
  calc (src.drop a).take (b - a) ++ src.drop b
      = (src.drop a).take (b - a) ++ (src.drop a).drop (b - a) := by rw [h2]
    _ = src.drop a := List.take_append_drop _ _

theorem listSlice_full (src : List Nat) (i : Nat) :
    listSlice src i src.length = src.drop i := by
  unfold listSlice
  rw [← List.length_drop, List.take_length]

theorem listSlice_zero (src : List Nat) (b : Nat) :
    listSlice src 0 b = src.take b := by
  simp [listSlice]

/-! ## The bulk-accept reduction of the write loop -/

set_option maxRecDepth 8000 in
theorem matchLoop_bulk (src : List Nat) (inter pcol prow rmode : Bool) (fixed : List Nat)
    (rfn : List Nat → List Nat) :
    ∀ (ms : List Match) (i : Nat) (st : RState),
      (inter = false ∨ st.allReplace = true) →
      matchLoop src inter pcol prow rmode fixed rfn ms i st =
        .done (bulkChunks src rmode fixed rfn ms i) st
  | [], i, st, _ => by simp [matchLoop, bulkChunks]
  | m :: ms, i, st, h => by
    have hdec : decideOne src inter pcol prow m.beg st = .go true st := by
      unfold decideOne
      rcases h with h | h <;> simp [h]
    have ih := matchLoop_bulk src inter pcol prow rmode fixed rfn ms m.end_ st h
    simp only [matchLoop, hdec]
    rw [ih]
    simp only [bulkChunks, if_true]

theorem betweenChunks_tail (src : List Nat) (f : Match → List Nat) (m : Match)
    (ms : List Match) :
    betweenChunks src f m ms = f m ++ specTailContent src f m.end_ ms := by
  cases ms <;> simp [betweenChunks, specTailContent]

theorem bulkChunks_flatten (src : List Nat) (rmode : Bool) (fixed : List Nat)
    (rfn : List Nat → List Nat) :
    ∀ (ms : List Match) (i : Nat), ChainValid i ms →
      (bulkChunks src rmode fixed rfn ms i).flatten =
        specTailContent src (fun m => if rmode then rfn (listSlice src m.beg m.end_) else fixed)
          i ms
  | [], i, _ => by
    by_cases hi : i < src.length
    · simp [bulkChunks, specTailContent, hi, listSlice_full]
    · have : src.drop i = [] := List.drop_eq_nil_of_le (by omega)
      simp [bulkChunks, specTailContent, hi, this]
  | m :: ms, i, h => by
    obtain ⟨h1, h2, h3⟩ := h
    have ih := bulkChunks_flatten src rmode fixed rfn ms m.end_ h3
    simp only [bulkChunks, List.flatten_cons]
    rw [ih, specTailContent, betweenChunks_tail]

theorem specTailContent_zero (src : List Nat) (f : Match → List Nat) (ms : List Match) :
    specTailContent src f 0 ms = specReplacedContent src f ms := by
  cases ms <;> simp [specTailContent, specReplacedContent, listSlice_zero]

/-- Claim C1: for every `PathMatch` whose matches are non-overlapping and
strictly increasing in `beg`, when every match is replaced (bulk accept
active or interactive mode off), the bytes written to the temporary file
equal the original bytes before the first match, then each match's
replacement in order with the original bytes between consecutive matches
copied verbatim, and finally the original bytes after the last match's
end — byte for byte. -/
theorem c1_all_replaced_content (src fixed : List Nat) (inter pcol prow rmode : Bool)
    (rfn : List Nat → List Nat) (ms : List Match) (st : RState)
    (hchain : ChainValid 0 ms)
    (hbulk : inter = false ∨ st.allReplace = true) :
    outContent (matchLoop src inter pcol prow rmode fixed rfn ms 0 st) =
      some (specReplacedContent src
        (fun m => if rmode then rfn (listSlice src m.beg m.end_) else fixed) ms) := by
  rw [matchLoop_bulk src inter pcol prow rmode fixed rfn ms 0 st hbulk]
  show some ((bulkChunks src rmode fixed rfn ms 0).flatten) = _
  rw [bulkChunks_flatten src rmode fixed rfn ms 0 hchain, specTailContent_zero]

/-- Witness for C1: `foo bar foo` with both `foo` matches replaced by
`baz` in non-interactive mode. -/
theorem c1_all_replaced_content_witness :
    (ChainValid 0 msFoo ∧ (false = false ∨ (false : Bool) = true)) ∧
      outContent (matchLoop srcFooBar false false false false bazBytes id msFoo 0
          ⟨false, [], 0, 0, 0⟩) =
        some (specReplacedContent srcFooBar
          (fun m => if false then id (listSlice srcFooBar m.beg m.end_) else bazBytes) msFoo) :=
  ⟨⟨by decide, Or.inl rfl⟩,
    c1_all_replaced_content srcFooBar bazBytes false false false false id msFoo
      ⟨false, [], 0, 0, 0⟩ (by decide) (Or.inl rfl)⟩

/-! ## The decline-everything reduction of the write loop -/

theorem matchLoop_decline (src fixed : List Nat) (pcol prow rmode : Bool)
    (rfn : List Nat → List Nat) :
    ∀ (ms : List Match) (i : Nat) (ks : List Char) (p c l : Nat),
      ChainValid i ms →
      (∀ k ∈ ks, k = 'n' ∨ k = 'N') →
      ks.length = ms.length →
      outContent (matchLoop src true pcol prow rmode fixed rfn ms i ⟨false, ks, p, c, l⟩) =
        some (src.drop i)
  | [], i, ks, p, c, l, _, _, hlen => by
    have hks : ks = [] := List.eq_nil_of_length_eq_zero (by simpa using hlen)
    subst hks
    by_cases hi : i < src.length
    · simp [matchLoop, outContent, hi, listSlice_full]
    · have hd : src.drop i = [] := List.drop_eq_nil_of_le (by omega)
      simp [matchLoop, outContent, hi, hd]
  | m :: ms, i, ks, p, c, l, hch, hkeys, hlen => by
    obtain ⟨h1, h2, h3⟩ := hch
    cases ks with
    | nil => simp at hlen
    | cons k ks' =>
      have hk := hkeys k (by simp)
      have hread : readKeys (k :: ks') = some (.rep false, ks') := by
        rcases hk with hk | hk <;> subst hk <;> simp [readKeys]
      have hstep : ∃ P C L, decideOne src true pcol prow m.beg ⟨false, k :: ks', p, c, l⟩ =
          .go false ⟨false, ks', P, C, L⟩ := by
        by_cases hpr : (pcol || prow) = true
        · exact ⟨(scanTo src p c l m.beg).1, (scanTo src p c l m.beg).2.1,
            (scanTo src p c l m.beg).2.2, by simp [decideOne, hpr, hread]⟩
        · exact ⟨p, c, l, by simp [decideOne, hpr, hread]⟩
      obtain ⟨P, C, L, hdec⟩ := hstep
      have ih := matchLoop_decline src fixed pcol prow rmode rfn ms m.end_ ks' P C L h3
        (fun k hk => hkeys k (by simp [hk])) (by simpa using hlen)
      simp only [matchLoop, hdec]
      cases hrec : matchLoop src true pcol prow rmode fixed rfn ms m.end_ ⟨false, ks', P, C, L⟩ with
      | quit => rw [hrec] at ih; simp [outContent] at ih
      | keyErr => rw [hrec] at ih; simp [outContent] at ih
      | done cs st3 =>
        rw [hrec] at ih
        simp only [outContent, Option.some.injEq] at ih
        simp only [hrec, outContent, Bool.false_eq_true, if_false, List.flatten_cons,
          Option.some.injEq]
        rw [ih, listSlice_append_drop src h2, listSlice_append_drop src h1]

/-- Claim C2: if the user declines every match (answers `n`/`N` at every
prompt), the content written to the temporary file is byte-identical to
the original file content. -/
theorem c2_decline_identity (src fixed : List Nat) (pcol prow rmode : Bool)
    (rfn : List Nat → List Nat) (ms : List Match) (ks : List Char) (p c l : Nat)
    (hchain : ChainValid 0 ms)
    (hkeys : ∀ k ∈ ks, k = 'n' ∨ k = 'N')
    (hlen : ks.length = ms.length) :
    outContent (matchLoop src true pcol prow rmode fixed rfn ms 0 ⟨false, ks, p, c, l⟩) =
      some src := by
  simpa using matchLoop_decline src fixed pcol prow rmode rfn ms 0 ks p c l hchain hkeys hlen

/-- Witness for C2: `foo bar foo`, both matches declined with `n` keys, in
interactive mode — the written content is the original bytes. -/
theorem c2_decline_identity_witness :
    (ChainValid 0 msFoo ∧ (∀ k ∈ (['n', 'N'] : List Char), k = 'n' ∨ k = 'N') ∧
        (['n', 'N'] : List Char).length = msFoo.length) ∧
      outContent (matchLoop srcFooBar true false false false bazBytes id msFoo 0
          ⟨false, ['n', 'N'], 0, 0, 0⟩) = some srcFooBar :=
  ⟨⟨by decide, by decide, by decide⟩,
    c2_decline_identity srcFooBar bazBytes false false false id msFoo ['n', 'N'] 0 0 0
      (by decide) (by decide) (by decide)⟩

/-! ## Characterization of the column/row scan -/

theorem scanToAux_spec (src : List Nat) :
    ∀ (fuel pos col lf beg : Nat), fuel = beg - pos → pos ≤ beg →
      scanToAux src fuel pos col lf beg =
        (beg, col + countLfIn src pos beg, lastLfIn src lf pos beg)
  | 0, pos, col, lf, beg, hf, _ => by
    have hpb : beg = pos := by omega
    subst hpb
    simp [scanToAux, countLfIn, lastLfIn]
  | fuel + 1, pos, col, lf, beg, hf, _ => by
    have hlt : pos < beg := by omega
    have hrange : List.range' pos (beg - pos) = pos :: List.range' (pos + 1) fuel := by
      rw [← hf]
      exact List.range'_succ pos fuel 1
    have hf2 : fuel = beg - (pos + 1) := by omega
    by_cases hb : src.getD pos 0 = 10
    · have ih := scanToAux_spec src fuel (pos + 1) (col + 1) pos beg hf2 (by omega)
      simp only [scanToAux, if_pos hlt, if_pos hb, ih, Prod.mk.injEq, true_and]
      constructor
      · unfold countLfIn
        rw [hrange, List.countP_cons_of_pos _ _ (by simpa using hb), ← hf2]
        omega
      · unfold lastLfIn
        rw [hrange, List.foldl_cons, if_pos hb, ← hf2]
    · have ih := scanToAux_spec src fuel (pos + 1) col lf beg hf2 (by omega)
      simp only [scanToAux, if_pos hlt, if_neg hb, ih, Prod.mk.injEq, true_and]
      constructor
      · unfold countLfIn
        rw [hrange, List.countP_cons_of_neg _ _ (by simpa using hb), ← hf2]
      · unfold lastLfIn
        rw [hrange, List.foldl_cons, if_neg hb, ← hf2]

theorem scanTo_spec (src : List Nat) (pos col lf beg : Nat) (h : pos ≤ beg) :
    scanTo src pos col lf beg = (beg, col + countLfIn src pos beg, lastLfIn src lf pos beg) :=
  scanToAux_spec src (beg - pos) pos col lf beg rfl h

theorem countLfIn_zero (src : List Nat) (beg : Nat) :
    countLfIn src 0 beg = lfCountBefore src beg := by
  simp [countLfIn, lfCountBefore, List.range_eq_range']

theorem lastLfIn_zero (src : List Nat) (beg : Nat) :
    lastLfIn src 0 0 beg = lastLfBefore src beg := by
  simp [lastLfIn, lastLfBefore, List.range_eq_range']

theorem countLfIn_split (src : List Nat) {a b c : Nat} (hab : a ≤ b) (hbc : b ≤ c) :
    countLfIn src a b + countLfIn src b c = countLfIn src a c := by
  unfold countLfIn
  rw [← List.countP_append]
  congr 1
  have h := List.range'_append a (b - a) (c - b) 1
  rw [show a + 1 * (b - a) = b by omega, show c - b + (b - a) = c - a by omega] at h
  exact h

theorem lastLfIn_split (src : List Nat) (lf : Nat) {a b c : Nat} (hab : a ≤ b) (hbc : b ≤ c) :
    lastLfIn src (lastLfIn src lf a b) b c = lastLfIn src lf a c := by
  unfold lastLfIn
  have h := List.range'_append a (b - a) (c - b) 1
  rw [show a + 1 * (b - a) = b by omega, show c - b + (b - a) = c - a by omega] at h
  rw [← h, List.foldl_append]

/-- Counterexample to C8 as stated: in the file `a\nb\nxy` (bytes
`[97, 10, 98, 10, 120, 121]`) with a match starting at offset 4 (the `x`),
the code prints column `2 + 1 = 3` (it counts line feeds), while the
number of characters since the last line start (offset 4), counted
1-based, is `0 + 1 = 1`. -/
theorem c8_counterexample :
    printedColumn [97, 10, 98, 10, 120, 121] 0 0 0 4 ≠
      (4 - lineStartOffset [97, 10, 98, 10, 120, 121] 4) + 1 := by decide

/-- Claim C8 (amended): the printed column number equals one plus the
number of line-feed bytes before the match's beginning (a 1-based line
count, not a count of characters since the line start), the printed row
number equals the byte offset of the match's start from the most recent
line feed (or from offset 0 when none), and the scan is incremental:
resuming from the state left by a scan to `b1` and continuing to
`b2 ≥ b1` gives exactly the state of a full scan to `b2`, so the scan
never restarts from the file start. -/
theorem c8_scan_line_row (src : List Nat) (b1 b2 : Nat) (h : b1 ≤ b2) :
    printedColumn src 0 0 0 b1 = lfCountBefore src b1 + 1
    ∧ printedRow src 0 0 0 b1 = b1 - lastLfBefore src b1
    ∧ scanTo src (scanTo src 0 0 0 b1).1 (scanTo src 0 0 0 b1).2.1
        (scanTo src 0 0 0 b1).2.2 b2 = scanTo src 0 0 0 b2 := by
  have hs1 := scanTo_spec src 0 0 0 b1 (Nat.zero_le _)
  have hs2 := scanTo_spec src 0 0 0 b2 (Nat.zero_le _)
  refine ⟨?_, ?_, ?_⟩
  · rw [printedColumn, hs1]
    simp [countLfIn_zero]
  · rw [printedRow, hs1]
    simp [lastLfIn_zero]
  · rw [hs1]
    simp only
    rw [scanTo_spec src b1 _ _ b2 h, hs2]
    simp only [Prod.mk.injEq, Nat.zero_add, true_and]
    constructor
    · have := countLfIn_split src (Nat.zero_le b1) h
      omega
    · exact lastLfIn_split src 0 (Nat.zero_le b1) h

/-- Witness for the amended C8 on the file `a\nb\nxy`, first match at
offset 4, second at offset 6. -/
theorem c8_scan_line_row_witness :
    (4 ≤ 6) ∧
      (printedColumn [97, 10, 98, 10, 120, 121] 0 0 0 4 =
          lfCountBefore [97, 10, 98, 10, 120, 121] 4 + 1
        ∧ printedRow [97, 10, 98, 10, 120, 121] 0 0 0 4 =
            4 - lastLfBefore [97, 10, 98, 10, 120, 121] 4
        ∧ scanTo [97, 10, 98, 10, 120, 121] (scanTo [97, 10, 98, 10, 120, 121] 0 0 0 4).1
            (scanTo [97, 10, 98, 10, 120, 121] 0 0 0 4).2.1
            (scanTo [97, 10, 98, 10, 120, 121] 0 0 0 4).2.2 6 =
              scanTo [97, 10, 98, 10, 120, 121] 0 0 0 6) :=
  ⟨by decide, c8_scan_line_row [97, 10, 98, 10, 120, 121] 4 6 (by decide)⟩

/-! ## Interrupt-handler installation order -/

/-- Claim C5: for every file rewrite, the interrupt handler — whose
actions are to delete the file's in-progress temporary file, restore the
terminal mode and terminate the process — is (re)installed (it is an event
of every per-file rewrite trace, at position 1, right after the temp file
is created) strictly before any write to the temporary file happens, for
any chunk list and either preserve-time mode. -/
theorem c5_handler_before_writes (p : Bool) (chunks : List (List Nat)) :
    (rewriteEvents p chunks).get? 1 = some (Ev.setHandler interruptHandlerActs)
    ∧ ∀ (i : Nat) (bs : List Nat),
        (rewriteEvents p chunks).get? i = some (Ev.write bs) → 1 < i := by
  constructor
  · rfl
  · intro i bs h
    match i with
    | 0 => simp [rewriteEvents, List.get?] at h
    | 1 => simp [rewriteEvents, List.get?] at h
    | 2 => simp [rewriteEvents, List.get?] at h
    | 3 => simp [rewriteEvents, List.get?] at h
    | n + 4 => omega

/-- Witness for C5: a one-chunk rewrite, whose write event sits at
position 4, after the handler installation at position 1. -/
theorem c5_handler_before_writes_witness :
    (rewriteEvents true [[102]]).get? 4 = some (Ev.write [102]) ∧ 1 < 4 :=
  ⟨by decide, (c5_handler_before_writes true [[102]]).2 4 [102] (by decide)⟩

/-! ## Pattern-mode round trip -/

theorem reMatch_consumes :
    ∀ (e : RE) (input rest : List Nat) (caps : List (List Nat)),
      reMatch e input = some (rest, caps) → ∃ pre, input = pre ++ rest
  | .lit s, input, rest, caps, h => by
    simp only [reMatch] at h
    split at h
    case isTrue hp =>
      obtain ⟨t, ht⟩ := List.isPrefixOf_iff_prefix.mp hp
      simp only [Option.some.injEq, Prod.mk.injEq] at h
      refine ⟨s, ?_⟩
      rw [← h.1, ← ht, List.drop_left]
    case isFalse => exact absurd h (by simp)
  | .grp r, input, rest, caps, h => by
    simp only [reMatch] at h
    cases hr : reMatch r input with
    | none => simp [hr] at h
    | some v =>
      obtain ⟨r1, c1⟩ := v
      simp only [hr, Option.some.injEq, Prod.mk.injEq] at h
      obtain ⟨pre, hpre⟩ := reMatch_consumes r input r1 c1 hr
      exact ⟨pre, by rw [← h.1]; exact hpre⟩
  | .cat a b, input, rest, caps, h => by
    simp only [reMatch] at h
    cases ha : reMatch a input with
    | none => simp [ha] at h
    | some va =>
      obtain ⟨ra, ca⟩ := va
      simp only [ha] at h
      cases hb : reMatch b ra with
      | none => simp [hb] at h
      | some vb =>
        obtain ⟨rb, cb⟩ := vb
        simp only [hb, Option.some.injEq, Prod.mk.injEq] at h
        obtain ⟨p1, hp1⟩ := reMatch_consumes a input ra ca ha
        obtain ⟨p2, hp2⟩ := reMatch_consumes b ra rb cb hb
        refine ⟨p1 ++ p2, ?_⟩
        rw [← h.1, hp1, hp2, List.append_assoc]

/-- Claim C9: in pattern mode the replacement bytes are computed by
stripping the `\b` boundary tokens from the keyword, re-matching the
stripped pattern against the matched bytes, and expanding the template's
back-references against the captures; when the template reproduces the
captured text verbatim (pattern `(<group>)<suffix>` with template
`$1<suffix>`), the computed replacement equals the matched bytes unchanged
(round-trip identity). -/
theorem c9_pattern_roundtrip (compile : List Nat → RE) (parseTemplate : List Nat → List TItem)
    (keyword replacement org s : List Nat) (r : RE) (caps : List (List Nat))
    (hc : compile (trimEndMatches bbToken (trimStartMatches bbToken keyword)) =
      RE.cat (RE.grp r) (RE.lit s))
    (ht : parseTemplate replacement = [TItem.ref 1, TItem.str s])
    (hm : reMatch (RE.cat (RE.grp r) (RE.lit s)) org = some ([], caps)) :
    get_regex_replacement compile parseTemplate keyword replacement org = some org := by
  have hg : ∃ rest1 caps1, reMatch r org = some (rest1, caps1) := by
    cases hrr : reMatch r org with
    | none => simp [reMatch, hrr] at hm
    | some v =>
      obtain ⟨v1, v2⟩ := v
      exact ⟨v1, v2, rfl⟩
  obtain ⟨rest1, caps1, hrr⟩ := hg
  have hm2 := hm
  simp only [reMatch, hrr] at hm2
  by_cases hp : s.isPrefixOf rest1
  case neg => simp [hp] at hm2
  case pos =>
    rw [if_pos hp] at hm2
    simp only [Option.some.injEq, Prod.mk.injEq, List.append_nil] at hm2
    obtain ⟨hdrop, hcaps⟩ := hm2
    obtain ⟨t, htt⟩ := List.isPrefixOf_iff_prefix.mp hp
    have hts : t = [] := by
      have hdl : (s ++ t).drop s.length = t := List.drop_left s t
      rw [htt, hdrop] at hdl
      exact hdl.symm
    have hrest1 : rest1 = s := by rw [← htt, hts, List.append_nil]
    obtain ⟨pre, hpre⟩ := reMatch_consumes r org rest1 caps1 hrr
    have hc1 : org.take (org.length - rest1.length) = pre := by
      rw [hpre, List.length_append, Nat.add_sub_cancel, List.take_left]
    simp only [get_regex_replacement, hc, hm, ht, List.length_nil, Nat.sub_zero,
      List.take_length, Option.some.injEq]
    rw [← hcaps, hc1]
    simp only [expandTemplate, List.getD_cons_zero, List.append_nil]
    rw [hpre, hrest1]

/-- Witness for C9: keyword `\b(ab)c\b`, replacement `$1c`, matched bytes
`abc` — the computed replacement is `abc` unchanged. -/
theorem c9_pattern_roundtrip_witness :
    (compileEx (trimEndMatches bbToken (trimStartMatches bbToken kwEx)) =
        RE.cat (RE.grp (RE.lit [97, 98])) (RE.lit [99])
      ∧ templateEx replEx = [TItem.ref 1, TItem.str [99]]
      ∧ reMatch (RE.cat (RE.grp (RE.lit [97, 98])) (RE.lit [99])) [97, 98, 99] =
          some ([], [[97, 98]]))
    ∧ get_regex_replacement compileEx templateEx kwEx replEx [97, 98, 99] =
        some [97, 98, 99] :=
  ⟨⟨by decide, by decide, by decide⟩,
    c9_pattern_roundtrip compileEx templateEx kwEx replEx [97, 98, 99] [99]
      (RE.lit [97, 98]) [[97, 98]] (by decide) (by decide) (by decide)⟩

/-! ## Reductions of `replace_match` -/

theorem replacer_eta (r : Replacer) :
    ({ r with allReplace := r.allReplace, keys := r.keys } : Replacer) = r := rfl

theorem failsAt_of_none {fs : Fs} {p : String} (hok : fs.fails p = none) (s : IoStage) :
    failsAt fs p s = none := by
  simp [failsAt, hok]

theorem failsAt_of_some {fs : Fs} {p : String} {stage : IoStage} {e : String}
    (hfail : fs.fails p = some (stage, e)) (s : IoStage) :
    failsAt fs p s = if stage = s then some e else none := by
  simp [failsAt, hfail]

theorem rewriteFile_ok (fs : Fs) (r : Replacer) (pm : PathMatch) (cpath : String)
    (hok : fs.fails pm.path = none)
    (hint : r.isInteractive = false) :
    rewriteFile fs r pm cpath =
      (r, RewriteOutcome.replaced cpath
        ((bulkChunks (fs.content pm.path) r.regexMode r.replacement fs.regexEngine
          pm.matches_ 0).flatten)) := by
  have hbulk := matchLoop_bulk (fs.content pm.path) r.isInteractive r.printColumn r.printRow
    r.regexMode r.replacement fs.regexEngine pm.matches_ 0 ⟨r.allReplace, r.keys, 0, 0, 0⟩
    (Or.inl hint)
  simp only [rewriteFile, failsAt_of_none hok, hbulk]
  split <;> rfl

theorem rewriteFile_fail (fs : Fs) (r : Replacer) (pm : PathMatch) (cpath : String)
    (stage : IoStage) (e : String)
    (hfail : fs.fails pm.path = some (stage, e))
    (hint : r.isInteractive = false)
    (hts : stage = IoStage.setTimes → r.preserveTime = true) :
    rewriteFile fs r pm cpath =
      (writeConsoleError r e pm.path,
        if stage = IoStage.setTimes then
          RewriteOutcome.failedAfterInstall cpath
            ((bulkChunks (fs.content pm.path) r.regexMode r.replacement fs.regexEngine
              pm.matches_ 0).flatten)
        else RewriteOutcome.failed) := by
  have hbulk := matchLoop_bulk (fs.content pm.path) r.isInteractive r.printColumn r.printRow
    r.regexMode r.replacement fs.regexEngine pm.matches_ 0 ⟨r.allReplace, r.keys, 0, 0, 0⟩
    (Or.inl hint)
  cases stage <;>
    simp [rewriteFile, failsAt_of_some hfail, hbulk, hts, replacer_eta, writeConsoleError]

theorem rewriteFile_preserves (fs : Fs) (r : Replacer) (pm : PathMatch) (cpath : String) :
    (rewriteFile fs r pm cpath).1.replacedPaths = r.replacedPaths
    ∧ (rewriteFile fs r pm cpath).1.errors = r.errors := by
  simp only [rewriteFile]
  cases hml : matchLoop (fs.content pm.path) r.isInteractive r.printColumn r.printRow
      r.regexMode r.replacement fs.regexEngine pm.matches_ 0
      ⟨r.allReplace, r.keys, 0, 0, 0⟩ with
  | quit =>
    repeat' split
    all_goals exact ⟨rfl, rfl⟩
  | keyErr =>
    repeat' split
    all_goals exact ⟨rfl, rfl⟩
  | done chunks st =>
    repeat' split
    all_goals exact ⟨rfl, rfl⟩

theorem replace_match_skip_mem (fs : Fs) (r : Replacer) (pm : PathMatch) (c : String)
    (hc : fs.canon pm.path = some c) (hm : c ∈ r.replacedPaths) :
    replace_match fs r pm = (r, RewriteOutcome.skipped) := by
  unfold replace_match
  split
  · rfl
  · simp [hc, hm]

theorem replace_match_canon_fail (fs : Fs) (r : Replacer) (pm : PathMatch)
    (hc : fs.canon pm.path = none) :
    replace_match fs r pm = (r, RewriteOutcome.skipped) := by
  unfold replace_match
  split
  · rfl
  · simp [hc]

theorem replace_match_run (fs : Fs) (r : Replacer) (pm : PathMatch) (c : String)
    (hne : pm.matches_ ≠ []) (hcanon : fs.canon pm.path = some c)
    (hnotin : c ∉ r.replacedPaths) :
    replace_match fs r pm =
      rewriteFile fs { r with replacedPaths := c :: r.replacedPaths } pm c := by
  simp [replace_match, hne, hcanon, hnotin]

theorem replace_match_paths_mono (fs : Fs) (r : Replacer) (pm : PathMatch) :
    r.replacedPaths ⊆ (replace_match fs r pm).1.replacedPaths := by
  unfold replace_match
  split
  · exact fun x hx => hx
  · split
    · exact fun x hx => hx
    · split
      · exact fun x hx => hx
      · rw [(rewriteFile_preserves _ _ _ _).1]
        exact fun x hx => List.mem_cons_of_mem _ hx

/-- Counterexample to C3 as stated: with preserve-time mode on and the
timestamp-restore step failing with `permission denied` on `/t/a`, the
stage's accumulated error list stays empty (the diagnostic goes straight
to the console) and the file has already been replaced by the atomic
install, so it is not left unmodified. -/
theorem c3_counterexample :
    (replace_match fsT { baseR with preserveTime := true } pmT).1.errors = []
    ∧ (replace_match fsT { baseR with preserveTime := true } pmT).2 =
        RewriteOutcome.failedAfterInstall "/t/ca" [120]
    ∧ (replace_match fsT { baseR with preserveTime := true } pmT).1.consoleOut =
        [errorLine "permission denied" "/t/a"] := by decide

/-- Claim C3 (amended): every I/O failure during a file's rewrite is
caught and does not terminate the stage; it is converted to the text
`Error: <decoded reason> @ <path>` and written immediately to the console
as an error-kind message — the stage's accumulated error list is not
touched by rewrite failures (so nothing about them is forwarded at End);
a failure before the atomic install leaves the file unmodified, while a
timestamp-restore failure happens after the install; processing continues
with the next item. -/
theorem c3_failure_reported (fs : Fs) (r : Replacer) (pm : PathMatch) (c : String)
    (stage : IoStage) (e : String)
    (hne : pm.matches_ ≠ [])
    (hcanon : fs.canon pm.path = some c)
    (hnotin : c ∉ r.replacedPaths)
    (hfail : fs.fails pm.path = some (stage, e))
    (hint : r.isInteractive = false)
    (hts : stage = IoStage.setTimes → r.preserveTime = true) :
    (replace_match fs r pm).1.errors = r.errors
    ∧ (replace_match fs r pm).1.consoleOut = r.consoleOut ++ [errorLine e pm.path]
    ∧ (stage ≠ IoStage.setTimes → (replace_match fs r pm).2 = RewriteOutcome.failed)
    ∧ (replace_match fs r pm).2 ≠ RewriteOutcome.exited := by
  rw [replace_match_run fs r pm c hne hcanon hnotin,
    rewriteFile_fail fs { r with replacedPaths := c :: r.replacedPaths } pm c stage e
      hfail hint hts]
  refine ⟨rfl, rfl, ?_, ?_⟩
  · intro hst
    simp [hst]
  · split <;> simp

/-- Witness for the amended C3: the timestamp-failure world `fsT`. -/
theorem c3_failure_reported_witness :
    (pmT.matches_ ≠ [] ∧ fsT.canon pmT.path = some "/t/ca"
      ∧ "/t/ca" ∉ ({ baseR with preserveTime := true } : Replacer).replacedPaths
      ∧ fsT.fails pmT.path = some (IoStage.setTimes, "permission denied"))
    ∧ ((replace_match fsT { baseR with preserveTime := true } pmT).1.errors =
          ({ baseR with preserveTime := true } : Replacer).errors
      ∧ (replace_match fsT { baseR with preserveTime := true } pmT).1.consoleOut =
          ({ baseR with preserveTime := true } : Replacer).consoleOut ++
            [errorLine "permission denied" pmT.path]
      ∧ (IoStage.setTimes ≠ IoStage.setTimes →
          (replace_match fsT { baseR with preserveTime := true } pmT).2 =
            RewriteOutcome.failed)
      ∧ (replace_match fsT { baseR with preserveTime := true } pmT).2 ≠
          RewriteOutcome.exited) :=
  ⟨⟨by decide, by decide, by decide, by decide⟩,
    c3_failure_reported fsT { baseR with preserveTime := true } pmT "/t/ca"
      IoStage.setTimes "permission denied" (by decide) (by decide) (by decide)
      (by decide) (by decide) (by decide)⟩

/-- Claim C4: of two `PathMatch` items whose paths canonicalize to the
same filesystem path, only the first causes a rewrite; the second is
abandoned as a no-op with no state change and no diagnostic, and a
`PathMatch` whose path fails to canonicalize is likewise abandoned
silently. -/
theorem c4_dedup_symlink (fs : Fs) (r : Replacer) (pm1 pm2 pmf : PathMatch) (c : String)
    (h1 : fs.canon pm1.path = some c) (h2 : fs.canon pm2.path = some c)
    (hne1 : pm1.matches_ ≠ [])
    (hnot : c ∉ r.replacedPaths)
    (hok : fs.fails pm1.path = none)
    (hint : r.isInteractive = false)
    (hcf : fs.canon pmf.path = none) :
    (∃ out, (replace_match fs r pm1).2 = RewriteOutcome.replaced c out)
    ∧ replace_match fs (replace_match fs r pm1).1 pm2 =
        ((replace_match fs r pm1).1, RewriteOutcome.skipped)
    ∧ replace_match fs r pmf = (r, RewriteOutcome.skipped) := by
  have hrun := replace_match_run fs r pm1 c hne1 h1 hnot
  have hok2 := rewriteFile_ok fs { r with replacedPaths := c :: r.replacedPaths } pm1 c
    hok hint
  have hmem : c ∈ (replace_match fs r pm1).1.replacedPaths := by
    rw [hrun, hok2]
    exact List.mem_cons_self _ _
  refine ⟨⟨(bulkChunks (fs.content pm1.path) r.regexMode r.replacement fs.regexEngine
      pm1.matches_ 0).flatten, ?_⟩, ?_, ?_⟩
  · rw [hrun, hok2]
  · exact replace_match_skip_mem fs _ pm2 c h2 hmem
  · exact replace_match_canon_fail fs r pmf hcf

/-- Witness for C4: `/a` and `/b` both canonicalize to `/c`; rewriting via
`/a` succeeds, the `/b` item is skipped, and the uncanonicalizable `/x`
item is skipped silently. -/
theorem c4_dedup_symlink_witness :
    (fsOK.canon pmA.path = some "/c" ∧ fsOK.canon pmB.path = some "/c"
      ∧ pmA.matches_ ≠ [] ∧ fsOK.fails pmA.path = none ∧ fsOK.canon pmX.path = none)
    ∧ ((∃ out, (replace_match fsOK baseR pmA).2 = RewriteOutcome.replaced "/c" out)
      ∧ replace_match fsOK (replace_match fsOK baseR pmA).1 pmB =
          ((replace_match fsOK baseR pmA).1, RewriteOutcome.skipped)
      ∧ replace_match fsOK baseR pmX = (baseR, RewriteOutcome.skipped)) :=
  ⟨⟨by decide, by decide, by decide, by decide, by decide⟩,
    c4_dedup_symlink fsOK baseR pmA pmB pmX "/c" (by decide) (by decide) (by decide)
      (by decide) (by decide) (by decide) (by decide)⟩

/-- Claim C10: a path's canonical form is inserted into the replaced-path
set before the rewrite is attempted and is never removed (the set only
grows across items); consequently, after a rewrite fails with an I/O
error, any later `PathMatch` canonicalizing to the same file is silently
skipped rather than retried. -/
theorem c10_insert_before_attempt (fs : Fs) (r : Replacer) (pm pm' : PathMatch) (c : String)
    (stage : IoStage) (e : String)
    (hne : pm.matches_ ≠ [])
    (hcanon : fs.canon pm.path = some c)
    (hnotin : c ∉ r.replacedPaths)
    (hfail : fs.fails pm.path = some (stage, e))
    (hint : r.isInteractive = false)
    (hts : stage = IoStage.setTimes → r.preserveTime = true)
    (hcanon' : fs.canon pm'.path = some c) :
    (∀ (fs2 : Fs) (r2 : Replacer) (pm2 : PathMatch),
        r2.replacedPaths ⊆ (replace_match fs2 r2 pm2).1.replacedPaths)
    ∧ c ∈ (replace_match fs r pm).1.replacedPaths
    ∧ replace_match fs (replace_match fs r pm).1 pm' =
        ((replace_match fs r pm).1, RewriteOutcome.skipped) := by
  have hrun := replace_match_run fs r pm c hne hcanon hnotin
  have hfailr := rewriteFile_fail fs { r with replacedPaths := c :: r.replacedPaths } pm c
    stage e hfail hint hts
  have hmem : c ∈ (replace_match fs r pm).1.replacedPaths := by
    rw [hrun, hfailr]
    exact List.mem_cons_self _ _
  exact ⟨fun fs2 r2 pm2 => replace_match_paths_mono fs2 r2 pm2, hmem,
    replace_match_skip_mem fs _ pm' c hcanon' hmem⟩

/-- Witness for C10: the rewrite of `/t/a` fails (timestamp step), yet its
canonical path `/t/ca` is in the set and a later item for the same file is
skipped. -/
theorem c10_insert_before_attempt_witness :
    (pmT.matches_ ≠ [] ∧ fsT.canon pmT.path = some "/t/ca"
      ∧ fsT.fails pmT.path = some (IoStage.setTimes, "permission denied"))
    ∧ ("/t/ca" ∈ (replace_match fsT { baseR with preserveTime := true } pmT).1.replacedPaths
      ∧ replace_match fsT (replace_match fsT { baseR with preserveTime := true } pmT).1 pmT =
          ((replace_match fsT { baseR with preserveTime := true } pmT).1,
            RewriteOutcome.skipped)) :=
  ⟨⟨by decide, by decide, by decide⟩,
    ((c10_insert_before_attempt fsT { baseR with preserveTime := true } pmT pmT "/t/ca"
      IoStage.setTimes "permission denied" (by decide) (by decide) (by decide)
      (by decide) (by decide) (by decide) (by decide)).2 : _ ∧ _)⟩

/-! ## The stage loop: Begin/End discipline and the End flush -/

theorem begSeqs_append {T : Type} :
    ∀ (l1 l2 : List (PipelineInfo T)), begSeqs (l1 ++ l2) = begSeqs l1 ++ begSeqs l2
  | [], _ => rfl
  | e :: l1, l2 => by cases e <;> simp [begSeqs, begSeqs_append l1 l2]

theorem endSeqs_append {T : Type} :
    ∀ (l1 l2 : List (PipelineInfo T)), endSeqs (l1 ++ l2) = endSeqs l1 ++ endSeqs l2
  | [], _ => rfl
  | e :: l1, l2 => by cases e <;> simp [endSeqs, endSeqs_append l1 l2]

theorem begSeqs_map_msgInfo (id : Nat) :
    ∀ (l : List String), begSeqs ((l.map (PipelineInfo.msgInfo id) : List (PipelineInfo Unit))) = []
  | [] => rfl
  | _ :: l => by simp [begSeqs, begSeqs_map_msgInfo id l]

theorem begSeqs_map_msgErr (id : Nat) :
    ∀ (l : List String), begSeqs ((l.map (PipelineInfo.msgErr id) : List (PipelineInfo Unit))) = []
  | [] => rfl
  | _ :: l => by simp [begSeqs, begSeqs_map_msgErr id l]

theorem endSeqs_map_msgInfo (id : Nat) :
    ∀ (l : List String), endSeqs ((l.map (PipelineInfo.msgInfo id) : List (PipelineInfo Unit))) = []
  | [] => rfl
  | _ :: l => by simp [endSeqs, endSeqs_map_msgInfo id l]

theorem endSeqs_map_msgErr (id : Nat) :
    ∀ (l : List String), endSeqs ((l.map (PipelineInfo.msgErr id) : List (PipelineInfo Unit))) = []
  | [] => rfl
  | _ :: l => by simp [endSeqs, endSeqs_map_msgErr id l]

theorem setupLoop_begSeqs (proc : Replacer → PathMatch → Replacer × RewriteOutcome)
    (id tBsy tEl : Nat) (hex : ∀ r pm, (proc r pm).2 ≠ RewriteOutcome.exited) :
    ∀ (input : List (PipelineInfo PathMatch)) (r : Replacer) (b : Bool),
      begSeqs (setupLoop proc id tBsy tEl r b input) =
        if b then [] else (begSeqs (upToEnd input)).take 1
  | [], r, b => by cases b <;> simp [setupLoop, begSeqs, upToEnd]
  | .seqDat x pm :: rest, r, b => by
    have ih := setupLoop_begSeqs proc id tBsy tEl hex rest (proc r pm).1 b
    simp only [setupLoop, if_neg (hex r pm), begSeqs, upToEnd, ih]
  | .seqBeg x :: rest, r, b => by
    cases b with
    | true =>
      have ih := setupLoop_begSeqs proc id tBsy tEl hex rest r true
      simp [setupLoop, upToEnd, ih]
    | false =>
      have ih := setupLoop_begSeqs proc id tBsy tEl hex rest r true
      simp [setupLoop, begSeqs, upToEnd, ih]
  | .seqEnd x :: rest, r, b => by
    cases b <;>
      simp [setupLoop, upToEnd, begSeqs, begSeqs_append, begSeqs_map_msgInfo,
        begSeqs_map_msgErr]
  | .msgDebug i e :: rest, r, b => by
    have ih := setupLoop_begSeqs proc id tBsy tEl hex rest r b
    simp only [setupLoop, begSeqs, upToEnd, ih]
  | .msgInfo i e :: rest, r, b => by
    have ih := setupLoop_begSeqs proc id tBsy tEl hex rest r b
    simp only [setupLoop, begSeqs, upToEnd, ih]
  | .msgErr i e :: rest, r, b => by
    have ih := setupLoop_begSeqs proc id tBsy tEl hex rest r b
    simp only [setupLoop, begSeqs, upToEnd, ih]
  | .msgTime i t0 t1 :: rest, r, b => by
    have ih := setupLoop_begSeqs proc id tBsy tEl hex rest r b
    simp only [setupLoop, begSeqs, upToEnd, ih]

theorem setupLoop_endSeqs (proc : Replacer → PathMatch → Replacer × RewriteOutcome)
    (id tBsy tEl : Nat) (hex : ∀ r pm, (proc r pm).2 ≠ RewriteOutcome.exited) :
    ∀ (input : List (PipelineInfo PathMatch)) (r : Replacer) (b : Bool),
      endSeqs (setupLoop proc id tBsy tEl r b input) = (endSeqs input).take 1
  | [], r, b => by simp [setupLoop, endSeqs]
  | .seqDat x pm :: rest, r, b => by
    have ih := setupLoop_endSeqs proc id tBsy tEl hex rest (proc r pm).1 b
    simp only [setupLoop, if_neg (hex r pm), endSeqs, ih]
  | .seqBeg x :: rest, r, b => by
    cases b with
    | true =>
      have ih := setupLoop_endSeqs proc id tBsy tEl hex rest r true
      simp [setupLoop, endSeqs, ih]
    | false =>
      have ih := setupLoop_endSeqs proc id tBsy tEl hex rest r true
      simp [setupLoop, endSeqs, ih]
  | .seqEnd x :: rest, r, b => by
    simp [setupLoop, endSeqs, endSeqs_append, endSeqs_map_msgInfo, endSeqs_map_msgErr]
  | .msgDebug i e :: rest, r, b => by
    have ih := setupLoop_endSeqs proc id tBsy tEl hex rest r b
    simp only [setupLoop, endSeqs, ih]
  | .msgInfo i e :: rest, r, b => by
    have ih := setupLoop_endSeqs proc id tBsy tEl hex rest r b
    simp only [setupLoop, endSeqs, ih]
  | .msgErr i e :: rest, r, b => by
    have ih := setupLoop_endSeqs proc id tBsy tEl hex rest r b
    simp only [setupLoop, endSeqs, ih]
  | .msgTime i t0 t1 :: rest, r, b => by
    have ih := setupLoop_endSeqs proc id tBsy tEl hex rest r b
    simp only [setupLoop, endSeqs, ih]

theorem setupLoop_stops_at_end (proc : Replacer → PathMatch → Replacer × RewriteOutcome)
    (id tBsy tEl : Nat) (hex : ∀ r pm, (proc r pm).2 ≠ RewriteOutcome.exited)
    (x : Nat) (suffix : List (PipelineInfo PathMatch)) :
    ∀ (pre : List (PipelineInfo PathMatch)) (r : Replacer) (b : Bool),
      (∀ e ∈ pre, isEnd e = false) →
      setupLoop proc id tBsy tEl r b (pre ++ PipelineInfo.seqEnd x :: suffix) =
        setupLoop proc id tBsy tEl r b (pre ++ [PipelineInfo.seqEnd x])
  | [], r, b, _ => by simp [setupLoop]
  | e :: pre, r, b, hpre => by
    have he := hpre e (by simp)
    have ih : ∀ (r' : Replacer) (b' : Bool), _ := fun r' b' =>
      setupLoop_stops_at_end proc id tBsy tEl hex x suffix pre r' b'
        (fun e' he' => hpre e' (by simp [he']))
    cases e with
    | seqDat y pm =>
      simp only [List.cons_append, setupLoop, if_neg (hex r pm), List.append_eq]
      rw [ih]
    | seqBeg y =>
      cases b with
      | true =>
        simp only [List.cons_append, setupLoop, if_pos, List.append_eq]
        rw [ih]
      | false =>
        simp only [List.cons_append, setupLoop, Bool.false_eq_true, if_false, List.append_eq]
        rw [ih]
    | seqEnd y => simp [isEnd] at he
    | msgDebug i s =>
      simp only [List.cons_append, setupLoop, List.append_eq]
      rw [ih]
    | msgInfo i s =>
      simp only [List.cons_append, setupLoop, List.append_eq]
      rw [ih]
    | msgErr i s =>
      simp only [List.cons_append, setupLoop, List.append_eq]
      rw [ih]
    | msgTime i t0 t1 =>
      simp only [List.cons_append, setupLoop, List.append_eq]
      rw [ih]

/-- A processor that never terminates the process: in the `fsNone` world
every item is abandoned before the rewrite starts. -/
theorem replace_match_fsNone_noexit :
    ∀ (r : Replacer) (pm : PathMatch),
      (replace_match fsNone r pm).2 ≠ RewriteOutcome.exited := by
  intro r pm
  unfold replace_match
  split
  · simp
  · simp [fsNone]

/-- Claim C6: for every input sequence of envelopes (with a per-item
processor that never exits the process), the stage forwards `SeqBeg`
exactly once per run — the first one received; later ones are absorbed —
and forwards `SeqEnd` exactly once, at the first `SeqEnd` received, after
which the loop stops and no further input is read. -/
theorem c6_begin_end_once (proc : Replacer → PathMatch → Replacer × RewriteOutcome)
    (id tBsy tEl : Nat) (r : Replacer) (input : List (PipelineInfo PathMatch))
    (hex : ∀ r' pm, (proc r' pm).2 ≠ RewriteOutcome.exited) :
    begSeqs (setupLoop proc id tBsy tEl r false input) = (begSeqs (upToEnd input)).take 1
    ∧ endSeqs (setupLoop proc id tBsy tEl r false input) = (endSeqs input).take 1
    ∧ ∀ (pre : List (PipelineInfo PathMatch)) (x : Nat)
        (suffix : List (PipelineInfo PathMatch)),
        (∀ e ∈ pre, isEnd e = false) →
        setupLoop proc id tBsy tEl r false (pre ++ PipelineInfo.seqEnd x :: suffix) =
          setupLoop proc id tBsy tEl r false (pre ++ [PipelineInfo.seqEnd x]) := by
  refine ⟨?_, setupLoop_endSeqs proc id tBsy tEl hex input r false, ?_⟩
  · rw [setupLoop_begSeqs proc id tBsy tEl hex input r false]
    simp
  · intro pre x suffix hpre
    exact setupLoop_stops_at_end proc id tBsy tEl hex x suffix pre r false hpre

/-- Witness for C6: a stream with three `SeqBeg`s (seqs 0, 1, 2), one
`SeqEnd` and data after the `SeqEnd`. -/
theorem c6_begin_end_once_witness :
    (∀ (r' : Replacer) (pm : PathMatch),
        (replace_match fsNone r' pm).2 ≠ RewriteOutcome.exited)
    ∧ begSeqs (setupLoop (replace_match fsNone) 3 5 7 baseR false inputT) =
        (begSeqs (upToEnd inputT)).take 1 :=
  ⟨replace_match_fsNone_noexit,
    (c6_begin_end_once (replace_match fsNone) 3 5 7 baseR inputT
      replace_match_fsNone_noexit).1⟩

/-- Claim C7: when the stage receives `SeqEnd`, its output from that point
is exactly each accumulated info string as an Info message tagged with the
stage id, then each accumulated error string as an Error message tagged
with the stage id, then one Timing message carrying the busy and elapsed
durations, then `SeqEnd` — and nothing further: the whole output of the
loop is the output for the prefix followed by this flush block, no matter
what follows the `SeqEnd` in the input. -/
theorem c7_end_flush (proc : Replacer → PathMatch → Replacer × RewriteOutcome)
    (id tBsy tEl : Nat) (x : Nat) (suffix : List (PipelineInfo PathMatch))
    (hex : ∀ r' pm, (proc r' pm).2 ≠ RewriteOutcome.exited) :
    ∀ (pre : List (PipelineInfo PathMatch)) (r : Replacer) (b : Bool),
      (∀ e ∈ pre, isEnd e = false) →
      setupLoop proc id tBsy tEl r b (pre ++ PipelineInfo.seqEnd x :: suffix) =
        setupLoop proc id tBsy tEl r b pre
          ++ ((loopState proc r b pre).1.infos.map (PipelineInfo.msgInfo id))
          ++ ((loopState proc r b pre).1.errors.map (PipelineInfo.msgErr id))
          ++ [PipelineInfo.msgTime id tBsy tEl, PipelineInfo.seqEnd x]
  | [], r, b, _ => by simp [setupLoop, loopState]
  | e :: pre, r, b, hpre => by
    have he := hpre e (by simp)
    have hpre' : ∀ e' ∈ pre, isEnd e' = false := fun e' he' => hpre e' (by simp [he'])
    cases e with
    | seqDat y pm =>
      have ih := c7_end_flush proc id tBsy tEl x suffix hex pre (proc r pm).1 b hpre'
      simp only [List.cons_append, setupLoop, if_neg (hex r pm), List.append_eq, loopState, ih]
    | seqBeg y =>
      cases b with
      | true =>
        have ih := c7_end_flush proc id tBsy tEl x suffix hex pre r true hpre'
        simp only [List.cons_append, setupLoop, if_pos, List.append_eq, loopState, ih]
      | false =>
        have ih := c7_end_flush proc id tBsy tEl x suffix hex pre r true hpre'
        simp only [List.cons_append, setupLoop, Bool.false_eq_true, if_false, List.append_eq,
          loopState, ih]
    | seqEnd y => simp [isEnd] at he
    | msgDebug i s =>
      have ih := c7_end_flush proc id tBsy tEl x suffix hex pre r b hpre'
      simp only [List.cons_append, setupLoop, List.append_eq, loopState, ih]
    | msgInfo i s =>
      have ih := c7_end_flush proc id tBsy tEl x suffix hex pre r b hpre'
      simp only [List.cons_append, setupLoop, List.append_eq, loopState, ih]
    | msgErr i s =>
      have ih := c7_end_flush proc id tBsy tEl x suffix hex pre r b hpre'
      simp only [List.cons_append, setupLoop, List.append_eq, loopState, ih]
    | msgTime i t0 t1 =>
      have ih := c7_end_flush proc id tBsy tEl x suffix hex pre r b hpre'
      simp only [List.cons_append, setupLoop, List.append_eq, loopState, ih]

/-- Witness for C7: the prefix `preT` (two Begins, a relayed Info, one
data item) followed by `SeqEnd 0` and a stray `SeqBeg 9`. -/
theorem c7_end_flush_witness :
    ((∀ (r' : Replacer) (pm : PathMatch),
        (replace_match fsNone r' pm).2 ≠ RewriteOutcome.exited)
      ∧ (∀ e ∈ preT, isEnd e = false))
    ∧ setupLoop (replace_match fsNone) 3 5 7 baseR false
        (preT ++ PipelineInfo.seqEnd 0 :: [PipelineInfo.seqBeg 9]) =
        setupLoop (replace_match fsNone) 3 5 7 baseR false preT
          ++ ((loopState (replace_match fsNone) baseR false preT).1.infos.map
                (PipelineInfo.msgInfo 3))
          ++ ((loopState (replace_match fsNone) baseR false preT).1.errors.map
                (PipelineInfo.msgErr 3))
          ++ [PipelineInfo.msgTime 3 5 7, PipelineInfo.seqEnd 0] :=
  ⟨⟨replace_match_fsNone_noexit, by decide⟩,
    c7_end_flush (replace_match fsNone) 3 5 7 0 [PipelineInfo.seqBeg 9]
      replace_match_fsNone_noexit preT baseR false (by decide)⟩

end Amber
